import Mathlib

/-
Verification of the link-layer ARP interface (src/src/network_interface.cc).

The state of the C++ class NetworkInterface is embedded shallowly: the two
std maps keyed by the raw 32-bit IP address become association lists kept in
increasing key order (matching std map iteration order), the deferred list and
the outgoing frame queue become plain lists, and each member function becomes
a pure function on the state record.  Machine integers are modelled by Nat and
Int; the signed age counter of arp_clock_ is an Int.
-/

namespace NetworkInterface

/-- Ethernet hardware address, modelled as the list of its six bytes. -/
abbrev EthernetAddress := List Nat

/-- The all-ones broadcast hardware address. -/
def ETHERNET_BROADCAST : EthernetAddress := [255, 255, 255, 255, 255, 255]

/-- The all-zero hardware address, written EthernetAddress {0} in the source. -/
def zeroEthernetAddress : EthernetAddress := [0, 0, 0, 0, 0, 0]

/-- Opaque IPv4 datagram, identified by an abstract code; the source treats the
datagram as an opaque value that is only serialized and stored. -/
abbrev InternetDatagram := Nat

/-- Modelled from the spec: the ARP message record of the external codec header
(arp_message.hh is used by the source but is not under src/).  The spec gives a
16-bit opcode with the two values REQUEST and REPLY; the standard wire values
1 and 2 are used here, and a default-constructed message has every field
value-initialized to zero, as the C++ member initializers give. -/
structure ARPMessage where
  opcode : Nat
  sender_ethernet_address : EthernetAddress
  sender_ip_address : Nat
  target_ethernet_address : EthernetAddress
  target_ip_address : Nat
deriving DecidableEq

/-- Modelled from the spec: the ARP request opcode wire value. -/
def OPCODE_REQUEST : Nat := 1

/-- Modelled from the spec: the ARP reply opcode wire value. -/
def OPCODE_REPLY : Nat := 2

/-- Modelled from the spec: the default-constructed ARPMessage, all fields
value-initialized to zero. -/
def defaultARPMessage : ARPMessage :=
  { opcode := 0
    sender_ethernet_address := zeroEthernetAddress
    sender_ip_address := 0
    target_ethernet_address := zeroEthernetAddress
    target_ip_address := 0 }

/-- Ethernet frame header: destination, source and the 16-bit type field. -/
structure EthernetHeader where
  dst : EthernetAddress
  src : EthernetAddress
  type : Nat
deriving DecidableEq

/-- EthernetHeader TYPE_IPv4 wire value 0x0800. -/
def TYPE_IPv4 : Nat := 2048

/-- EthernetHeader TYPE_ARP wire value 0x0806. -/
def TYPE_ARP : Nat := 2054

/-- Frame payload.  The external serialize/parse codecs are byte-exact, so they
are modelled by a sum type: a serialized IPv4 datagram parses only as IPv4, a
serialized ARP message parses only as ARP, and other byte strings parse as
neither. -/
inductive Payload where
  | ipv4 : InternetDatagram → Payload
  | arp : ARPMessage → Payload
  | malformed : Nat → Payload
deriving DecidableEq

structure EthernetFrame where
  header : EthernetHeader
  payload : Payload
deriving DecidableEq

/-- parse(InternetDatagram, payload) of the external codec. -/
def parseIPv4 : Payload → Option InternetDatagram
  | .ipv4 d => some d
  | _ => none

/-- parse(ARPMessage, payload) of the external codec. -/
def parseARP : Payload → Option ARPMessage
  | .arp m => some m
  | _ => none

/-- Lookup in an association list standing for a std map keyed by the raw
32-bit address. -/
def mlookup {α : Type} : List (Nat × α) → Nat → Option α
  | [], _ => none
  | (k, v) :: t, x => if x = k then some v else mlookup t x

/-- Insert or overwrite in the association list.  The std map iterates in
increasing key order, so the list is kept sorted by key. -/
def minsert {α : Type} : List (Nat × α) → Nat → α → List (Nat × α)
  | [], k, v => [(k, v)]
  | (k2, v2) :: t, k, v =>
    if k < k2 then (k, v) :: (k2, v2) :: t
    else if k = k2 then (k, v) :: t
    else (k2, v2) :: minsert t k v

/-- Erase a key from the association list. -/
def merase {α : Type} : List (Nat × α) → Nat → List (Nat × α)
  | [], _ => []
  | (k2, v2) :: t, k => if k = k2 then t else (k2, v2) :: merase t k

/-- The association list is sorted strictly by key, as a std map is. -/
def MSorted {α : Type} (m : List (Nat × α)) : Prop :=
  List.Pairwise (fun a b => a.1 < b.1) m

instance {α : Type} (m : List (Nat × α)) : Decidable (MSorted m) := by
  unfold MSorted
  infer_instance

/-- The NetworkInterface state: the Ethernet and IP addresses fixed at
construction, the ARP cache arp_table_, the signed age-record map arp_clock_,
the deferred datagram list dgram_table_ and the outgoing frame queue. -/
structure State where
  ethernet_address_ : EthernetAddress
  ip_address_ : Nat
  arp_table_ : List (Nat × EthernetAddress)
  arp_clock_ : List (Nat × Int)
  dgram_table_ : List (Nat × InternetDatagram)
  outgoing_frames_ : List EthernetFrame
deriving DecidableEq

/-- The state right after the constructor runs: both maps and both queues
start empty. -/
def initState (e : EthernetAddress) (i : Nat) : State :=
  { ethernet_address_ := e
    ip_address_ := i
    arp_table_ := []
    arp_clock_ := []
    dgram_table_ := []
    outgoing_frames_ := [] }

/-- The default-constructed EthernetFrame that the fall-through path of
send_datagram pushes: no branch body has filled any field, so the header type
is zero and the payload is empty. -/
def emptyFrame : EthernetFrame :=
  { header := { dst := zeroEthernetAddress, src := zeroEthernetAddress, type := 0 }
    payload := .malformed 0 }

/-- The ARP request frame built by send_datagram lines 35-45: broadcast
destination, zero target hardware address, own addresses as sender. -/
def arpRequestFrame (eth : EthernetAddress) (ip next_ip : Nat) : EthernetFrame :=
  { header := { dst := ETHERNET_BROADCAST, src := eth, type := TYPE_ARP }
    payload := .arp
      { opcode := OPCODE_REQUEST
        sender_ethernet_address := eth
        sender_ip_address := ip
        target_ethernet_address := zeroEthernetAddress
        target_ip_address := next_ip } }

/-- NetworkInterface send_datagram, lines 23-58.  Branches exactly as the
source: cache hit builds the data frame; no age record sends an ARP request,
defers the datagram and starts the countdown at -1; a negative record defers
the datagram and returns early; the remaining fall-through (record >= 0 with
no cache entry) reaches the final push with the default-constructed frame. -/
def send_datagram (dgram : InternetDatagram) (next_hop : Nat) (s : State) : State :=
  match mlookup s.arp_table_ next_hop with
  | some mac =>
    { s with outgoing_frames_ := s.outgoing_frames_ ++
        [{ header := { dst := mac, src := s.ethernet_address_, type := TYPE_IPv4 }
           payload := .ipv4 dgram }] }
  | none =>
    match mlookup s.arp_clock_ next_hop with
    | none =>
      { s with
        dgram_table_ := s.dgram_table_ ++ [(next_hop, dgram)]
        arp_clock_ := minsert s.arp_clock_ next_hop (-1)
        outgoing_frames_ := s.outgoing_frames_ ++
          [arpRequestFrame s.ethernet_address_ s.ip_address_ next_hop] }
    | some v =>
      if v < 0 then { s with dgram_table_ := s.dgram_table_ ++ [(next_hop, dgram)] }
      else { s with outgoing_frames_ := s.outgoing_frames_ ++ [emptyFrame] }

/-- The flush condition of retrieve_datagram line 139: the next hop has an age
record and the record is non-negative. -/
def clockResolved (clock : List (Nat × Int)) (ip : Nat) : Bool :=
  match mlookup clock ip with
  | some v => decide (0 ≤ v)
  | none => false

/-- The loop of retrieve_datagram lines 137-147, walking the deferred list with
the running index: the first entry whose next hop has a non-negative age record
is re-submitted through send_datagram and erased at its index, and the loop
stops. -/
def retrieveGo (s : State) : List (Nat × InternetDatagram) → Nat → State
  | [], _ => s
  | e :: rest, idx =>
    if clockResolved s.arp_clock_ e.1 then
      let s2 := send_datagram e.2 e.1 s
      { s2 with dgram_table_ := s2.dgram_table_.eraseIdx idx }
    else retrieveGo s rest (idx + 1)

/-- NetworkInterface retrieve_datagram, lines 135-148. -/
def retrieve_datagram (s : State) : State :=
  retrieveGo s s.dgram_table_ 0

/-- The ARP reply frame built by recv_frame lines 82-92 from the (possibly
default-constructed) inbound message: sender and target fields swapped, own
addresses substituted as sender, opcode REPLY, sent to the requester. -/
def arpReplyFrame (s : State) (msg : ARPMessage) : EthernetFrame :=
  { header := { dst := msg.sender_ethernet_address, src := s.ethernet_address_, type := TYPE_ARP }
    payload := .arp
      { opcode := OPCODE_REPLY
        sender_ethernet_address := s.ethernet_address_
        sender_ip_address := s.ip_address_
        target_ethernet_address := msg.sender_ethernet_address
        target_ip_address := msg.sender_ip_address } }

/-- The ARP block of recv_frame, lines 73-96: if the payload parses, learn the
sender mapping and zero its age record; then, using the parsed message or the
default-constructed one when parsing failed, reply when the message is a
request targeted at this interface. -/
def processArp (f : EthernetFrame) (s : State) : State :=
  let parsed := parseARP f.payload
  let msg := parsed.getD defaultARPMessage
  let s1 :=
    match parsed with
    | some m =>
      { s with
        arp_table_ := minsert s.arp_table_ m.sender_ip_address m.sender_ethernet_address
        arp_clock_ := minsert s.arp_clock_ m.sender_ip_address 0 }
    | none => s
  if msg.target_ip_address = s.ip_address_ ∧ msg.opcode = OPCODE_REQUEST then
    { s1 with outgoing_frames_ := s1.outgoing_frames_ ++ [arpReplyFrame s msg] }
  else s1

/-- NetworkInterface recv_frame, lines 60-100.  A parsed IPv4 frame addressed
to this interface returns the datagram immediately; every other frame runs the
ARP block when the type is ARP and then one deferred-queue flush. -/
def recv_frame (f : EthernetFrame) (s : State) : Option InternetDatagram × State :=
  if f.header.type = TYPE_IPv4 ∧ f.header.dst = s.ethernet_address_ ∧
      (parseIPv4 f.payload).isSome then
    (parseIPv4 f.payload, s)
  else
    (none, retrieve_datagram (if f.header.type = TYPE_ARP then processArp f s else s))

/-- NetworkInterface maybe_send, lines 102-110: pop the front of the outgoing
frame queue. -/
def maybe_send (s : State) : Option EthernetFrame × State :=
  match s.outgoing_frames_ with
  | [] => (none, s)
  | f :: rest => (some f, { s with outgoing_frames_ := rest })

/-- The loop of tick lines 117-131 over the age-record map in increasing key
order.  A non-negative record gains ms; reaching 30000 erases the cache entry
and the record and stops the loop, otherwise the loop continues.  A negative
record loses ms; passing -5001 erases the record; either way the loop stops.
Returns the updated cache and the updated record map. -/
def tickLoop (ms : Nat) (table : List (Nat × EthernetAddress)) :
    List (Nat × Int) → List (Nat × EthernetAddress) × List (Nat × Int)
  | [] => (table, [])
  | (k, v) :: t =>
    if 0 ≤ v then
      if 30000 ≤ v + ms then (merase table k, t)
      else ((tickLoop ms table t).1, (k, v + ms) :: (tickLoop ms table t).2)
    else
      if v - ms ≤ -5001 then (table, t)
      else (table, (k, v - ms) :: t)

/-- NetworkInterface tick, lines 113-133: return unchanged when the record map
is empty, otherwise run the aging loop and then one deferred-queue flush. -/
def tick (ms : Nat) (s : State) : State :=
  if s.arp_clock_ = [] then s
  else
    let r := tickLoop ms s.arp_table_ s.arp_clock_
    retrieve_datagram { s with arp_table_ := r.1, arp_clock_ := r.2 }

/-- Repeated tick calls with the given elapsed amounts. -/
def tickFold (ts : List Nat) (s : State) : State :=
  ts.foldl (fun acc m => tick m acc) s

/-- One invocation of any of the four public entry points. -/
inductive Step : State → State → Prop where
  | send : ∀ s dg nh, Step s (send_datagram dg nh s)
  | recv : ∀ s f, Step s (recv_frame f s).2
  | clock : ∀ s ms, Step s (tick ms s)
  | poll : ∀ s, Step s (maybe_send s).2

/-- States reachable from a freshly constructed interface by any sequence of
public calls. -/
inductive Reachable : State → Prop where
  | init : ∀ e i, Reachable (initState e i)
  | step : ∀ s s2, Reachable s → Step s s2 → Reachable s2

/-- A protocol address is Resolved when it has a cache entry. -/
def Resolved (s : State) (ip : Nat) : Prop :=
  (mlookup s.arp_table_ ip).isSome

instance (s : State) (ip : Nat) : Decidable (Resolved s ip) := by
  unfold Resolved; infer_instance

/-- The lockstep invariant between the cache and the age-record map: both maps
are sorted, and an address has a cache entry exactly when it has a non-negative
age record. -/
def Inv (s : State) : Prop :=
  MSorted s.arp_table_ ∧ MSorted s.arp_clock_ ∧
  ∀ ip, (mlookup s.arp_table_ ip).isSome ↔ ∃ v, mlookup s.arp_clock_ ip = some v ∧ 0 ≤ v

/-- Outcome of one tick for a record that the aging loop reaches: the record is
advanced by ms following the advance_time rules, with eviction of cache entry
and record at the TTL and clearing of a pending record past the cooldown
bound. -/
def Advanced (ms : Nat) (tbl tb2 : List (Nat × EthernetAddress))
    (ck2 : List (Nat × Int)) (ip : Nat) (v : Int) : Prop :=
  (0 ≤ v ∧ v + ms < 30000 ∧ mlookup ck2 ip = some (v + ms) ∧ mlookup tb2 ip = mlookup tbl ip) ∨
  (0 ≤ v ∧ 30000 ≤ v + ms ∧ mlookup ck2 ip = none ∧ mlookup tb2 ip = none) ∨
  (v < 0 ∧ v - ms ≤ -5001 ∧ mlookup ck2 ip = none ∧ mlookup tb2 ip = mlookup tbl ip) ∨
  (v < 0 ∧ -5001 < v - ms ∧ mlookup ck2 ip = some (v - ms) ∧ mlookup tb2 ip = mlookup tbl ip)

/-- Concrete hardware address of the interface used in witness states. -/
def e0 : EthernetAddress := [10, 11, 12, 13, 14, 15]

/-- Concrete hardware address of a peer used in witness states. -/
def macB : EthernetAddress := [7, 7, 7, 7, 7, 7]

/-- After one send to the unresolved next hop 2. -/
def wS1 : State := send_datagram 100 2 (initState e0 1)

/-- After a second send to the still pending next hop 2. -/
def wS2 : State := send_datagram 200 2 wS1

/-- A well-formed ARP reply from the peer claiming address 2. -/
def replyF : EthernetFrame :=
  { header := { dst := e0, src := macB, type := TYPE_ARP }
    payload := .arp
      { opcode := OPCODE_REPLY
        sender_ethernet_address := macB
        sender_ip_address := 2
        target_ethernet_address := e0
        target_ip_address := 1 } }

/-- A reachable state holding a deferred datagram whose next hop is already
resolved: the reply unblocked only the first of the two deferred entries. -/
def wS : State := (recv_frame replyF wS2).2

/-- A reachable state with two pending records, for the tick counterexample. -/
def exC1 : State := send_datagram 60 2 (send_datagram 50 1 (initState e0 1))

/-- A parseable IPv4 frame addressed to this interface. -/
def fIP : EthernetFrame :=
  { header := { dst := e0, src := macB, type := TYPE_IPv4 }, payload := .ipv4 42 }

theorem mlookup_eq_none_of_forall {α : Type} (m : List (Nat × α)) (x : Nat)
    (h : ∀ e ∈ m, e.1 ≠ x) : mlookup m x = none := by
  induction m with
  | nil => rfl
  | cons e t ih =>
    obtain ⟨k, v⟩ := e
    simp only [mlookup]
    rw [if_neg fun hx => h (k, v) (List.mem_cons_self _ _) hx.symm]
    exact ih fun e he => h e (List.mem_cons_of_mem _ he)

theorem mlookup_minsert_self {α : Type} (m : List (Nat × α)) (k : Nat) (v : α) :
    mlookup (minsert m k v) k = some v := by
  induction m with
  | nil => simp [minsert, mlookup]
  | cons e t ih =>
    obtain ⟨k2, v2⟩ := e
    simp only [minsert]
    by_cases h1 : k < k2
    · simp [h1, mlookup]
    · by_cases h2 : k = k2
      · simp [h1, h2, mlookup]
      · simp [h1, h2, mlookup, ih]

theorem mlookup_minsert_ne {α : Type} (m : List (Nat × α)) (k x : Nat) (v : α)
    (hx : x ≠ k) : mlookup (minsert m k v) x = mlookup m x := by
  induction m with
  | nil => simp [minsert, mlookup, hx]
  | cons e t ih =>
    obtain ⟨k2, v2⟩ := e
    simp only [minsert]
    by_cases h1 : k < k2
    · simp [h1, mlookup, hx]
    · by_cases h2 : k = k2
      · subst h2
        simp [h1, mlookup, hx]
      · by_cases h3 : x = k2
        · simp [h1, h2, mlookup, h3]
        · simp [h1, h2, mlookup, h3, ih]

theorem mlookup_merase_ne {α : Type} (m : List (Nat × α)) (k x : Nat)
    (hx : x ≠ k) : mlookup (merase m k) x = mlookup m x := by
  induction m with
  | nil => rfl
  | cons e t ih =>
    obtain ⟨k2, v2⟩ := e
    simp only [merase]
    by_cases h2 : k = k2
    · subst h2
      simp [mlookup, hx]
    · by_cases h3 : x = k2
      · simp [h2, mlookup, h3]
      · simp [h2, mlookup, h3, ih]

theorem mlookup_merase_self {α : Type} (m : List (Nat × α)) (k : Nat)
    (h : MSorted m) : mlookup (merase m k) k = none := by
  induction m with
  | nil => rfl
  | cons e t ih =>
    obtain ⟨k2, v2⟩ := e
    rw [MSorted, List.pairwise_cons] at h
    simp only [merase]
    by_cases h2 : k = k2
    · subst h2
      rw [if_pos rfl]
      exact mlookup_eq_none_of_forall t k fun e he => (Nat.ne_of_lt (h.1 e he)).symm
    · rw [if_neg h2]
      simp only [mlookup]
      rw [if_neg h2]
      exact ih h.2

theorem mem_minsert {α : Type} (m : List (Nat × α)) (k : Nat) (v : α) :
    ∀ b ∈ minsert m k v, b = (k, v) ∨ b ∈ m := by
  induction m with
  | nil => simp [minsert]
  | cons e t ih =>
    obtain ⟨k2, v2⟩ := e
    simp only [minsert]
    by_cases h1 : k < k2
    · simp only [if_pos h1]
      intro b hb
      rcases List.mem_cons.mp hb with hb | hb
      · exact Or.inl hb
      · exact Or.inr hb
    · by_cases h2 : k = k2
      · simp only [if_neg h1, if_pos h2]
        intro b hb
        rcases List.mem_cons.mp hb with hb | hb
        · exact Or.inl hb
        · exact Or.inr (List.mem_cons.mpr (Or.inr hb))
      · simp only [if_neg h1, if_neg h2]
        intro b hb
        rcases List.mem_cons.mp hb with hb | hb
        · right
          exact List.mem_cons.mpr (Or.inl hb)
        · rcases ih b hb with hb2 | hb2
          · exact Or.inl hb2
          · exact Or.inr (List.mem_cons.mpr (Or.inr hb2))

theorem MSorted_minsert {α : Type} (m : List (Nat × α)) (k : Nat) (v : α)
    (h : MSorted m) : MSorted (minsert m k v) := by
  induction m with
  | nil => simp [minsert, MSorted]
  | cons e t ih =>
    obtain ⟨k2, v2⟩ := e
    rw [MSorted, List.pairwise_cons] at h
    simp only [minsert]
    by_cases h1 : k < k2
    · rw [if_pos h1, MSorted, List.pairwise_cons]
      refine ⟨?_, ?_⟩
      · intro b hb
        rcases List.mem_cons.mp hb with hb | hb
        · simp [hb, h1]
        · exact Nat.lt_trans h1 (h.1 b hb)
      · rw [List.pairwise_cons]
        exact h
    · by_cases h2 : k = k2
      · subst h2
        rw [if_neg h1, if_pos rfl, MSorted, List.pairwise_cons]
        exact ⟨h.1, h.2⟩
      · rw [if_neg h1, if_neg h2, MSorted, List.pairwise_cons]
        refine ⟨?_, ih h.2⟩
        intro b hb
        rcases mem_minsert t k v b hb with hb2 | hb2
        · have : k2 < k := by omega
          simp [hb2, this]
        · exact h.1 b hb2

theorem merase_sublist {α : Type} (m : List (Nat × α)) (k : Nat) :
    List.Sublist (merase m k) m := by
  induction m with
  | nil => simp [merase]
  | cons e t ih =>
    obtain ⟨k2, v2⟩ := e
    simp only [merase]
    by_cases h2 : k = k2
    · rw [if_pos h2]
      exact List.Sublist.cons _ (List.Sublist.refl t)
    · rw [if_neg h2]
      exact ih.cons₂ _

theorem MSorted_merase {α : Type} (m : List (Nat × α)) (k : Nat)
    (h : MSorted m) : MSorted (merase m k) :=
  List.Pairwise.sublist (merase_sublist m k) h

theorem tickLoop_keys_sublist (ms : Nat) (tb : List (Nat × EthernetAddress))
    (m : List (Nat × Int)) :
    List.Sublist ((tickLoop ms tb m).2.map Prod.fst) (m.map Prod.fst) := by
  induction m with
  | nil => simp [tickLoop]
  | cons e t ih =>
    obtain ⟨k, v⟩ := e
    simp only [tickLoop]
    split_ifs with h1 h2 h3
    · exact List.Sublist.cons _ (List.Sublist.refl _)
    · exact ih.cons₂ _
    · exact List.Sublist.cons _ (List.Sublist.refl _)
    · exact List.Sublist.refl _

theorem MSorted_tickLoop_clock (ms : Nat) (tb : List (Nat × EthernetAddress))
    (m : List (Nat × Int)) (h : MSorted m) : MSorted (tickLoop ms tb m).2 := by
  rw [MSorted] at h ⊢
  have h2 : List.Pairwise (· < ·) (m.map Prod.fst) := List.pairwise_map.mpr h
  exact List.pairwise_map.mp (List.Pairwise.sublist (tickLoop_keys_sublist ms tb m) h2)

theorem tickLoop_table_cases (ms : Nat) (tb : List (Nat × EthernetAddress))
    (m : List (Nat × Int)) :
    (tickLoop ms tb m).1 = tb ∨ ∃ k, (tickLoop ms tb m).1 = merase tb k := by
  induction m with
  | nil => exact Or.inl rfl
  | cons e t ih =>
    obtain ⟨k, v⟩ := e
    simp only [tickLoop]
    split_ifs with h1 h2 h3
    · exact Or.inr ⟨k, rfl⟩
    · exact ih
    · exact Or.inl rfl
    · exact Or.inl rfl

theorem MSorted_tickLoop_table (ms : Nat) (tb : List (Nat × EthernetAddress))
    (m : List (Nat × Int)) (h : MSorted tb) : MSorted (tickLoop ms tb m).1 := by
  rcases tickLoop_table_cases ms tb m with h2 | ⟨k, h2⟩
  · rw [h2]
    exact h
  · rw [h2]
    exact MSorted_merase tb k h

theorem tickLoop_spec (ms : Nat) (m : List (Nat × Int))
    (tb : List (Nat × EthernetAddress)) (hm : MSorted m) (htb : MSorted tb)
    (ip : Nat) :
    (mlookup m ip = none →
      mlookup (tickLoop ms tb m).2 ip = none ∧
      mlookup (tickLoop ms tb m).1 ip = mlookup tb ip) ∧
    (∀ v : Int, mlookup m ip = some v →
      Advanced ms tb (tickLoop ms tb m).1 (tickLoop ms tb m).2 ip v ∨
      (mlookup (tickLoop ms tb m).2 ip = some v ∧
       mlookup (tickLoop ms tb m).1 ip = mlookup tb ip)) := by
  induction m with
  | nil =>
    constructor
    · intro _
      exact ⟨rfl, rfl⟩
    · intro v hv
      simp [mlookup] at hv
  | cons e t ih =>
    obtain ⟨k, v0⟩ := e
    rw [MSorted, List.pairwise_cons] at hm
    have hmt : MSorted t := hm.2
    have hknone : mlookup t k = none :=
      mlookup_eq_none_of_forall t k fun e he => (Nat.ne_of_lt (hm.1 e he)).symm
    have iht := ih hmt
    by_cases hik : ip = k
    · subst hik
      constructor
      · intro hip
        simp [mlookup] at hip
      · intro v hv
        simp only [mlookup, eq_self_iff_true, if_true, Option.some_inj] at hv
        subst hv
        simp only [tickLoop]
        split_ifs with h1 h2 h3
        · refine Or.inl (Or.inr (Or.inl ⟨h1, h2, hknone, ?_⟩))
          exact mlookup_merase_self tb ip htb
        · refine Or.inl (Or.inl ⟨h1, by omega, ?_, ?_⟩)
          · simp [mlookup]
          · exact ((iht ).1 hknone).2
        · exact Or.inl (Or.inr (Or.inr (Or.inl ⟨by omega, h3, hknone, rfl⟩)))
        · refine Or.inl (Or.inr (Or.inr (Or.inr ⟨by omega, by omega, ?_, rfl⟩)))
          simp [mlookup]
    · have hskip : ∀ (w : Int) (l : List (Nat × Int)),
          mlookup ((k, w) :: l) ip = mlookup l ip := by
        intro w l
        simp [mlookup, hik]
      constructor
      · intro hip
        rw [hskip v0 t] at hip
        simp only [tickLoop]
        split_ifs with h1 h2 h3
        · exact ⟨hip, mlookup_merase_ne tb k ip hik⟩
        · obtain ⟨hc, ht⟩ := (iht ).1 hip
          exact ⟨by rw [hskip]; exact hc, ht⟩
        · exact ⟨hip, rfl⟩
        · exact ⟨by rw [hskip]; exact hip, rfl⟩
      · intro v hv
        rw [hskip v0 t] at hv
        simp only [tickLoop]
        split_ifs with h1 h2 h3
        · exact Or.inr ⟨hv, mlookup_merase_ne tb k ip hik⟩
        · rcases (iht ).2 v hv with hadv | ⟨hc, ht⟩
          · rcases hadv with ⟨a, b, c, d⟩ | ⟨a, b, c, d⟩ | ⟨a, b, c, d⟩ | ⟨a, b, c, d⟩
            · exact Or.inl (Or.inl ⟨a, b, by rw [hskip]; exact c, d⟩)
            · exact Or.inl (Or.inr (Or.inl ⟨a, b, by rw [hskip]; exact c, d⟩))
            · exact Or.inl (Or.inr (Or.inr (Or.inl ⟨a, b, by rw [hskip]; exact c, d⟩)))
            · exact Or.inl (Or.inr (Or.inr (Or.inr ⟨a, b, by rw [hskip]; exact c, d⟩)))
          · exact Or.inr ⟨by rw [hskip]; exact hc, ht⟩
        · exact Or.inr ⟨hv, rfl⟩
        · exact Or.inr ⟨by rw [hskip]; exact hv, rfl⟩

theorem tickLoop_head (ms : Nat) (k : Nat) (v : Int) (t : List (Nat × Int))
    (tb : List (Nat × EthernetAddress)) (hm : MSorted ((k, v) :: t))
    (htb : MSorted tb) :
    Advanced ms tb (tickLoop ms tb ((k, v) :: t)).1 (tickLoop ms tb ((k, v) :: t)).2 k v := by
  rw [MSorted, List.pairwise_cons] at hm
  have hknone : mlookup t k = none :=
    mlookup_eq_none_of_forall t k fun e he => (Nat.ne_of_lt (hm.1 e he)).symm
  simp only [tickLoop]
  split_ifs with h1 h2 h3
  · exact Or.inr (Or.inl ⟨h1, h2, hknone, mlookup_merase_self tb k htb⟩)
  · refine Or.inl ⟨h1, by omega, ?_, ?_⟩
    · simp [mlookup]
    · exact ((tickLoop_spec ms t tb hm.2 htb k).1 hknone).2
  · exact Or.inr (Or.inr (Or.inl ⟨by omega, h3, hknone, rfl⟩))
  · refine Or.inr (Or.inr (Or.inr ⟨by omega, by omega, ?_, rfl⟩))
    simp [mlookup]

theorem tickLoop_inv (ms : Nat) (m : List (Nat × Int))
    (tb : List (Nat × EthernetAddress)) (hm : MSorted m) (htb : MSorted tb)
    (h : ∀ ip, (mlookup tb ip).isSome ↔ ∃ v, mlookup m ip = some v ∧ 0 ≤ v) :
    ∀ ip, (mlookup (tickLoop ms tb m).1 ip).isSome ↔
      ∃ v, mlookup (tickLoop ms tb m).2 ip = some v ∧ 0 ≤ v := by
  intro ip
  rcases hck : mlookup m ip with _ | v
  · obtain ⟨hc, ht⟩ := (tickLoop_spec ms m tb hm htb ip).1 hck
    rw [hc, ht, h ip, hck]
  · rcases (tickLoop_spec ms m tb hm htb ip).2 v hck with hadv | ⟨hc, ht⟩
    · rcases hadv with ⟨a, b, c, d⟩ | ⟨a, b, c, d⟩ | ⟨a, b, c, d⟩ | ⟨a, b, c, d⟩
      · rw [c, d, h ip, hck]
        constructor
        · intro _
          exact ⟨v + ms, rfl, by omega⟩
        · intro _
          exact ⟨v, rfl, a⟩
      · rw [c, d]
        simp
      · rw [c, d, h ip, hck]
        constructor
        · rintro ⟨w, hw, hw2⟩
          injection hw with hw
          omega
        · rintro ⟨w, hw, hw2⟩
          cases hw
      · rw [c, d, h ip, hck]
        constructor
        · rintro ⟨w, hw, hw2⟩
          injection hw with hw
          omega
        · rintro ⟨w, hw, hw2⟩
          injection hw with hw
          omega
    · rw [hc, ht, h ip, hck]

theorem clockResolved_iff (clock : List (Nat × Int)) (ip : Nat) :
    clockResolved clock ip = true ↔ ∃ v, mlookup clock ip = some v ∧ 0 ≤ v := by
  rcases hc : mlookup clock ip with _ | v
  · simp [clockResolved, hc]
  · simp [clockResolved, hc]

theorem send_resolved_fields (dg : InternetDatagram) (ip : Nat) (s : State)
    (h : clockResolved s.arp_clock_ ip = true) :
    (send_datagram dg ip s).arp_table_ = s.arp_table_ ∧
    (send_datagram dg ip s).arp_clock_ = s.arp_clock_ ∧
    (send_datagram dg ip s).dgram_table_ = s.dgram_table_ ∧
    (send_datagram dg ip s).ethernet_address_ = s.ethernet_address_ ∧
    (send_datagram dg ip s).ip_address_ = s.ip_address_ := by
  obtain ⟨v, hv, hv0⟩ := (clockResolved_iff _ _).mp h
  rcases ht : mlookup s.arp_table_ ip with _ | mac
  · simp only [send_datagram, ht, hv]
    rw [if_neg (by omega : ¬ v < 0)]
    simp
  · simp only [send_datagram, ht]
    simp

theorem retrieveGo_fields (s : State) (l : List (Nat × InternetDatagram)) :
    ∀ idx : Nat,
    (retrieveGo s l idx).arp_table_ = s.arp_table_ ∧
    (retrieveGo s l idx).arp_clock_ = s.arp_clock_ ∧
    (retrieveGo s l idx).ethernet_address_ = s.ethernet_address_ ∧
    (retrieveGo s l idx).ip_address_ = s.ip_address_ := by
  induction l with
  | nil =>
    intro idx
    exact ⟨rfl, rfl, rfl, rfl⟩
  | cons e rest ih =>
    intro idx
    simp only [retrieveGo]
    by_cases hc : clockResolved s.arp_clock_ e.1 = true
    · rw [if_pos hc]
      obtain ⟨t1, t2, t3, t4, t5⟩ := send_resolved_fields e.2 e.1 s hc
      exact ⟨t1, t2, t4, t5⟩
    · rw [if_neg hc]
      exact ih (idx + 1)

theorem retrieve_fields (s : State) :
    (retrieve_datagram s).arp_table_ = s.arp_table_ ∧
    (retrieve_datagram s).arp_clock_ = s.arp_clock_ ∧
    (retrieve_datagram s).ethernet_address_ = s.ethernet_address_ ∧
    (retrieve_datagram s).ip_address_ = s.ip_address_ :=
  retrieveGo_fields s s.dgram_table_ 0

theorem Inv_initState (e : EthernetAddress) (i : Nat) : Inv (initState e i) := by
  refine ⟨List.Pairwise.nil, List.Pairwise.nil, ?_⟩
  intro ip
  simp [initState, mlookup]

theorem Inv_send (dg : InternetDatagram) (nh : Nat) (s : State) (h : Inv s) :
    Inv (send_datagram dg nh s) := by
  obtain ⟨hst, hsc, hiff⟩ := h
  rcases ht : mlookup s.arp_table_ nh with _ | mac
  · rcases hc : mlookup s.arp_clock_ nh with _ | v
    · simp only [send_datagram, ht, hc]
      refine ⟨hst, MSorted_minsert _ _ _ hsc, ?_⟩
      intro ip
      by_cases hik : ip = nh
      · subst hik
        constructor
        · intro hx
          rw [ht] at hx
          simp at hx
        · rintro ⟨w, hw, hw2⟩
          rw [mlookup_minsert_self] at hw
          injection hw with hw
          omega
      · rw [mlookup_minsert_ne _ _ _ _ hik]
        exact hiff ip
    · simp only [send_datagram, ht, hc]
      split_ifs
      · exact ⟨hst, hsc, hiff⟩
      · exact ⟨hst, hsc, hiff⟩
  · simp only [send_datagram, ht]
    exact ⟨hst, hsc, hiff⟩

theorem Inv_fields_eq (s s2 : State) (h1 : s2.arp_table_ = s.arp_table_)
    (h2 : s2.arp_clock_ = s.arp_clock_) (h : Inv s) : Inv s2 := by
  refine ⟨?_, ?_, ?_⟩
  · rw [h1]
    exact h.1
  · rw [h2]
    exact h.2.1
  · intro ip
    rw [h1, h2]
    exact h.2.2 ip

theorem Inv_retrieve (s : State) (h : Inv s) : Inv (retrieve_datagram s) := by
  obtain ⟨f1, f2, _, _⟩ := retrieve_fields s
  exact Inv_fields_eq s (retrieve_datagram s) f1 f2 h

theorem Inv_processArp (f : EthernetFrame) (s : State) (h : Inv s) :
    Inv (processArp f s) := by
  obtain ⟨hst, hsc, hiff⟩ := h
  rcases hp : parseARP f.payload with _ | m
  · simp only [processArp, hp]
    split_ifs
    · exact ⟨hst, hsc, hiff⟩
    · exact ⟨hst, hsc, hiff⟩
  · simp only [processArp, hp]
    have hinv : Inv { s with
        arp_table_ := minsert s.arp_table_ m.sender_ip_address m.sender_ethernet_address
        arp_clock_ := minsert s.arp_clock_ m.sender_ip_address 0 } := by
      refine ⟨MSorted_minsert _ _ _ hst, MSorted_minsert _ _ _ hsc, ?_⟩
      intro ip
      by_cases hik : ip = m.sender_ip_address
      · subst hik
        rw [mlookup_minsert_self, mlookup_minsert_self]
        simp
      · rw [mlookup_minsert_ne _ _ _ _ hik, mlookup_minsert_ne _ _ _ _ hik]
        exact hiff ip
    split_ifs
    · exact ⟨hinv.1, hinv.2.1, hinv.2.2⟩
    · exact hinv

theorem Inv_recv (f : EthernetFrame) (s : State) (h : Inv s) :
    Inv (recv_frame f s).2 := by
  unfold recv_frame
  split_ifs with hd ha
  · exact h
  · exact Inv_retrieve _ (Inv_processArp f s h)
  · exact Inv_retrieve _ h

theorem Inv_tick (ms : Nat) (s : State) (h : Inv s) : Inv (tick ms s) := by
  unfold tick
  split_ifs with he
  · exact h
  · apply Inv_retrieve
    exact ⟨MSorted_tickLoop_table ms s.arp_table_ s.arp_clock_ h.1,
      MSorted_tickLoop_clock ms s.arp_table_ s.arp_clock_ h.2.1,
      tickLoop_inv ms s.arp_clock_ s.arp_table_ h.2.1 h.1 h.2.2⟩

theorem Inv_poll (s : State) (h : Inv s) : Inv (maybe_send s).2 := by
  unfold maybe_send
  rcases hf : s.outgoing_frames_ with _ | ⟨f, rest⟩
  · exact h
  · exact ⟨h.1, h.2.1, h.2.2⟩

theorem inv_of_reachable (s : State) (h : Reachable s) : Inv s := by
  induction h with
  | init e i => exact Inv_initState e i
  | step s1 s2 hr hstep ih =>
    cases hstep with
    | send dg nh => exact Inv_send dg nh s1 ih
    | recv f => exact Inv_recv f s1 ih
    | clock ms => exact Inv_tick ms s1 ih
    | poll => exact Inv_poll s1 ih

theorem wS_reachable : Reachable wS := by
  have h1 : Reachable wS1 := Reachable.step _ _ (Reachable.init e0 1) (Step.send _ 100 2)
  have h2 : Reachable wS2 := Reachable.step _ _ h1 (Step.send _ 200 2)
  exact Reachable.step _ _ h2 (Step.recv _ replyF)

theorem retrieve_empty (s : State) (h : s.dgram_table_ = []) :
    retrieve_datagram s = s := by
  unfold retrieve_datagram
  rw [h]
  rfl

theorem processArp_request (f : EthernetFrame) (s : State) (m : ARPMessage)
    (hp : parseARP f.payload = some m) (htgt : m.target_ip_address = s.ip_address_)
    (hop : m.opcode = OPCODE_REQUEST) :
    processArp f s = { s with
      arp_table_ := minsert s.arp_table_ m.sender_ip_address m.sender_ethernet_address
      arp_clock_ := minsert s.arp_clock_ m.sender_ip_address 0
      outgoing_frames_ := s.outgoing_frames_ ++ [arpReplyFrame s m] } := by
  simp only [processArp, hp, Option.getD_some]
  rw [if_pos ⟨htgt, hop⟩]

/-- Claim C3: in every reachable state, an address has a cache entry exactly
when it has a non-negative age record, and an address with a negative
(pending) record never has a cache entry. -/
theorem C3_cache_clock_lockstep : ∀ s : State, Reachable s → ∀ ip : Nat,
    ((mlookup s.arp_table_ ip).isSome ↔
      ∃ v, mlookup s.arp_clock_ ip = some v ∧ 0 ≤ v) ∧
    ((∃ v, mlookup s.arp_clock_ ip = some v ∧ v < 0) →
      mlookup s.arp_table_ ip = none) := by
  intro s hr ip
  have hi := inv_of_reachable s hr
  refine ⟨hi.2.2 ip, ?_⟩
  rintro ⟨v, hv, hv2⟩
  rcases ht : mlookup s.arp_table_ ip with _ | mac
  · rfl
  · have hx : (mlookup s.arp_table_ ip).isSome := by
      rw [ht]
      rfl
    obtain ⟨w, hw, hw2⟩ := (hi.2.2 ip).mp hx
    rw [hv] at hw
    injection hw with hw
    omega

theorem C3_witness :
    ((mlookup wS.arp_table_ 2).isSome ↔
      ∃ v, mlookup wS.arp_clock_ 2 = some v ∧ 0 ≤ v) ∧
    ((∃ v, mlookup wS.arp_clock_ 2 = some v ∧ v < 0) →
      mlookup wS.arp_table_ 2 = none) :=
  C3_cache_clock_lockstep wS wS_reachable 2

/-- Claim C4: from an Unknown next hop, two consecutive send_datagram calls to
that next hop push exactly one ARP request frame and two deferred entries; the
second call leaves the frame queue untouched. -/
theorem C4_dedup : ∀ (s : State) (dg1 dg2 : InternetDatagram) (nh : Nat),
    mlookup s.arp_table_ nh = none → mlookup s.arp_clock_ nh = none →
    (send_datagram dg1 nh s).outgoing_frames_ =
      s.outgoing_frames_ ++ [arpRequestFrame s.ethernet_address_ s.ip_address_ nh] ∧
    (send_datagram dg2 nh (send_datagram dg1 nh s)).outgoing_frames_ =
      (send_datagram dg1 nh s).outgoing_frames_ ∧
    (send_datagram dg2 nh (send_datagram dg1 nh s)).dgram_table_ =
      s.dgram_table_ ++ [(nh, dg1), (nh, dg2)] := by
  intro s dg1 dg2 nh ht hc
  have h1 : send_datagram dg1 nh s = { s with
      dgram_table_ := s.dgram_table_ ++ [(nh, dg1)]
      arp_clock_ := minsert s.arp_clock_ nh (-1)
      outgoing_frames_ := s.outgoing_frames_ ++
        [arpRequestFrame s.ethernet_address_ s.ip_address_ nh] } := by
    simp only [send_datagram, ht, hc]
  have h2 : send_datagram dg2 nh (send_datagram dg1 nh s) =
      { send_datagram dg1 nh s with
        dgram_table_ := (send_datagram dg1 nh s).dgram_table_ ++ [(nh, dg2)] } := by
    rw [h1]
    simp [send_datagram, ht, mlookup_minsert_self]
  refine ⟨by rw [h1], by rw [h2], ?_⟩
  rw [h2]
  simp only [h1]
  simp [List.append_assoc]

theorem C4_witness :
    (send_datagram 5 9 (initState e0 1)).outgoing_frames_ = [arpRequestFrame e0 1 9] ∧
    (send_datagram 6 9 (send_datagram 5 9 (initState e0 1))).outgoing_frames_ =
      (send_datagram 5 9 (initState e0 1)).outgoing_frames_ ∧
    (send_datagram 6 9 (send_datagram 5 9 (initState e0 1))).dgram_table_ =
      [(9, 5), (9, 6)] :=
  C4_dedup (initState e0 1) 5 6 9 rfl rfl

/-- Claim C5: a well-formed ARP request targeted at this interface makes
recv_frame enqueue exactly one reply frame, with sender and target fields
swapped, own addresses substituted as sender, opcode REPLY, sent unicast to
the requester. -/
theorem C5_reply_correctness : ∀ (s : State) (m : ARPMessage) (d src : EthernetAddress),
    s.dgram_table_ = [] →
    m.opcode = OPCODE_REQUEST →
    m.target_ip_address = s.ip_address_ →
    (recv_frame ⟨⟨d, src, TYPE_ARP⟩, .arp m⟩ s).2.outgoing_frames_ =
      s.outgoing_frames_ ++
        [{ header := { dst := m.sender_ethernet_address, src := s.ethernet_address_,
                       type := TYPE_ARP }
           payload := .arp
             { opcode := OPCODE_REPLY
               sender_ethernet_address := s.ethernet_address_
               sender_ip_address := s.ip_address_
               target_ethernet_address := m.sender_ethernet_address
               target_ip_address := m.sender_ip_address } }] := by
  intro s m d src hdq hop htgt
  unfold recv_frame
  have hx : ¬((⟨⟨d, src, TYPE_ARP⟩, .arp m⟩ : EthernetFrame).header.type = TYPE_IPv4 ∧
      (⟨⟨d, src, TYPE_ARP⟩, .arp m⟩ : EthernetFrame).header.dst = s.ethernet_address_ ∧
      (parseIPv4 (⟨⟨d, src, TYPE_ARP⟩, .arp m⟩ : EthernetFrame).payload).isSome = true) := by
    rintro ⟨hx1, hx2, hx3⟩
    simp [TYPE_ARP, TYPE_IPv4] at hx1
  rw [if_neg hx]
  rw [if_pos (rfl : (⟨⟨d, src, TYPE_ARP⟩, .arp m⟩ : EthernetFrame).header.type = TYPE_ARP)]
  rw [processArp_request ⟨⟨d, src, TYPE_ARP⟩, .arp m⟩ s m rfl htgt hop]
  rw [retrieve_empty _ (by exact hdq)]
  rfl

theorem C5_witness :
    (recv_frame ⟨⟨e0, macB, TYPE_ARP⟩,
        .arp { opcode := OPCODE_REQUEST
               sender_ethernet_address := macB
               sender_ip_address := 2
               target_ethernet_address := zeroEthernetAddress
               target_ip_address := 1 }⟩ (initState e0 1)).2.outgoing_frames_ =
      [{ header := { dst := macB, src := e0, type := TYPE_ARP }
         payload := .arp
           { opcode := OPCODE_REPLY
             sender_ethernet_address := e0
             sender_ip_address := 1
             target_ethernet_address := macB
             target_ip_address := 2 } }] :=
  C5_reply_correctness (initState e0 1) _ e0 macB rfl rfl rfl

/-- Claim C6: a frame whose payload parses neither as IPv4 nor as ARP is
dropped silently: recv_frame returns no datagram and the state change is
exactly the frame-independent deferred-queue flush, which leaves the cache and
the age-record map unchanged. -/
theorem C6_malformed_drop : ∀ (s : State) (f : EthernetFrame),
    parseIPv4 f.payload = none → parseARP f.payload = none →
    recv_frame f s = (none, retrieve_datagram s) ∧
    (retrieve_datagram s).arp_table_ = s.arp_table_ ∧
    (retrieve_datagram s).arp_clock_ = s.arp_clock_ := by
  intro s f hip harp
  refine ⟨?_, (retrieve_fields s).1, (retrieve_fields s).2.1⟩
  unfold recv_frame
  rw [if_neg (by simp [hip])]
  by_cases ha : f.header.type = TYPE_ARP
  · rw [if_pos ha]
    have hpz : processArp f s = s := by
      simp only [processArp, harp, Option.getD_none]
      rw [if_neg (by
        rintro ⟨hz1, hz2⟩
        exact absurd hz2 (by decide))]
    rw [hpz]
  · rw [if_neg ha]

theorem C6_witness :
    recv_frame ⟨⟨e0, macB, TYPE_ARP⟩, .malformed 9⟩ (initState e0 1) =
      (none, retrieve_datagram (initState e0 1)) ∧
    (retrieve_datagram (initState e0 1)).arp_table_ = (initState e0 1).arp_table_ ∧
    (retrieve_datagram (initState e0 1)).arp_clock_ = (initState e0 1).arp_clock_ :=
  C6_malformed_drop (initState e0 1) ⟨⟨e0, macB, TYPE_ARP⟩, .malformed 9⟩ rfl rfl

/-- Claim C10: in every reachable state, send_datagram either leaves the frame
queue unchanged or appends exactly one frame whose type field is IPv4 or ARP;
the fall-through that would push the default-constructed empty frame is
unreachable. -/
theorem C10_frames_populated : ∀ s : State, Reachable s →
    ∀ (dg : InternetDatagram) (nh : Nat),
    (send_datagram dg nh s).outgoing_frames_ = s.outgoing_frames_ ∨
    ∃ fr : EthernetFrame,
      (send_datagram dg nh s).outgoing_frames_ = s.outgoing_frames_ ++ [fr] ∧
      (fr.header.type = TYPE_IPv4 ∨ fr.header.type = TYPE_ARP) ∧ fr ≠ emptyFrame := by
  intro s hr dg nh
  have hi := inv_of_reachable s hr
  rcases ht : mlookup s.arp_table_ nh with _ | mac
  · rcases hc : mlookup s.arp_clock_ nh with _ | v
    · right
      refine ⟨arpRequestFrame s.ethernet_address_ s.ip_address_ nh, ?_, Or.inr rfl, ?_⟩
      · simp only [send_datagram, ht, hc]
      · intro hx
        have hy := congrArg (fun fr => fr.header.type) hx
        simp [arpRequestFrame, emptyFrame, TYPE_ARP] at hy
    · by_cases hv : v < 0
      · left
        simp only [send_datagram, ht, hc]
        rw [if_pos hv]
      · exfalso
        have hsome : (mlookup s.arp_table_ nh).isSome :=
          (hi.2.2 nh).mpr ⟨v, hc, by omega⟩
        rw [ht] at hsome
        simp at hsome
  · right
    refine ⟨{ header := { dst := mac, src := s.ethernet_address_, type := TYPE_IPv4 }
              payload := .ipv4 dg }, ?_, Or.inl rfl, ?_⟩
    · simp only [send_datagram, ht]
    · intro hx
      have hy := congrArg (fun fr => fr.header.type) hx
      simp [emptyFrame, TYPE_IPv4] at hy

theorem C10_witness :
    (send_datagram 300 2 wS).outgoing_frames_ = wS.outgoing_frames_ ∨
    ∃ fr : EthernetFrame,
      (send_datagram 300 2 wS).outgoing_frames_ = wS.outgoing_frames_ ++ [fr] ∧
      (fr.header.type = TYPE_IPv4 ∨ fr.header.type = TYPE_ARP) ∧ fr ≠ emptyFrame :=
  C10_frames_populated wS wS_reachable 300 2

/-- Claim C2, refuted as stated: recv_frame on a parsed IPv4 frame addressed
to this interface returns the datagram with the state exactly unchanged, even
though a flush of the deferred queue of wS would remove its resolved entry, so
no flush was attempted before returning. -/
theorem C2_counterexample :
    recv_frame fIP wS = (some 42, wS) ∧
    (retrieve_datagram wS).dgram_table_ ≠ wS.dgram_table_ := by
  decide

/-- Claim C2 as amended: one deferred-queue flush is performed before
recv_frame returns in every case except successful IPv4 delivery; when an IPv4
frame addressed to this interface parses, recv_frame returns the datagram
immediately and the state is unchanged, with no flush. -/
theorem C2_flush_on_recv : ∀ (f : EthernetFrame) (s : State),
    (¬(f.header.type = TYPE_IPv4 ∧ f.header.dst = s.ethernet_address_ ∧
        (parseIPv4 f.payload).isSome = true) →
      recv_frame f s =
        (none, retrieve_datagram (if f.header.type = TYPE_ARP then processArp f s else s))) ∧
    ((f.header.type = TYPE_IPv4 ∧ f.header.dst = s.ethernet_address_ ∧
        (parseIPv4 f.payload).isSome = true) →
      (recv_frame f s).2 = s) := by
  intro f s
  constructor
  · intro hnd
    unfold recv_frame
    rw [if_neg hnd]
  · intro hd
    unfold recv_frame
    rw [if_pos hd]

theorem C2_flush_on_recv_witness :
    recv_frame replyF wS =
      (none, retrieve_datagram
        (if replyF.header.type = TYPE_ARP then processArp replyF wS else wS)) :=
  (C2_flush_on_recv replyF wS).1 (by decide)

/-- Claim C1, refuted as stated: in the reachable state exC1 with two pending
records, tick 10 advances the countdown of the first record by 10 but leaves
the second record at -1, although the claim requires every pending countdown
to advance by the elapsed milliseconds. -/
theorem C1_counterexample :
    mlookup exC1.arp_clock_ 2 = some (-1) ∧
    mlookup (tick 10 exC1).arp_clock_ 2 = some (-1) ∧
    mlookup (tick 10 exC1).arp_clock_ 1 = some (-11) := by
  decide

/-- Claim C1 as amended: tick walks the age records in increasing key order
and each record is either advanced by ms_elapsed following the advance_time
rules or left untouched; the first record is always advanced; when the record
map is empty tick returns at once without flushing, and otherwise the result
is exactly one deferred-queue flush of the aged state, whose deferred list and
frame queue are those of the input. -/
theorem C1_tick_aging : ∀ (s : State) (ms : Nat),
    MSorted s.arp_table_ → MSorted s.arp_clock_ →
    (s.arp_clock_ = [] → tick ms s = s) ∧
    (∀ (ip : Nat) (v : Int), mlookup s.arp_clock_ ip = some v →
      Advanced ms s.arp_table_ (tick ms s).arp_table_ (tick ms s).arp_clock_ ip v ∨
      (mlookup (tick ms s).arp_clock_ ip = some v ∧
       mlookup (tick ms s).arp_table_ ip = mlookup s.arp_table_ ip)) ∧
    (∀ (k : Nat) (v : Int) (t : List (Nat × Int)), s.arp_clock_ = (k, v) :: t →
      Advanced ms s.arp_table_ (tick ms s).arp_table_ (tick ms s).arp_clock_ k v) ∧
    (s.arp_clock_ ≠ [] → ∃ s2 : State, tick ms s = retrieve_datagram s2 ∧
      s2.dgram_table_ = s.dgram_table_ ∧ s2.outgoing_frames_ = s.outgoing_frames_ ∧
      s2.arp_table_ = (tickLoop ms s.arp_table_ s.arp_clock_).1 ∧
      s2.arp_clock_ = (tickLoop ms s.arp_table_ s.arp_clock_).2) := by
  intro s ms hst hsc
  by_cases he : s.arp_clock_ = []
  · refine ⟨?_, ?_, ?_, ?_⟩
    · intro _
      unfold tick
      rw [if_pos he]
    · intro ip v hv
      rw [he] at hv
      simp [mlookup] at hv
    · intro k v t hck
      rw [he] at hck
      cases hck
    · intro hne
      exact absurd he hne
  · have htick : tick ms s = retrieve_datagram { s with
        arp_table_ := (tickLoop ms s.arp_table_ s.arp_clock_).1
        arp_clock_ := (tickLoop ms s.arp_table_ s.arp_clock_).2 } := by
      unfold tick
      rw [if_neg he]
    have hck : (tick ms s).arp_clock_ = (tickLoop ms s.arp_table_ s.arp_clock_).2 := by
      rw [htick]
      exact (retrieve_fields _).2.1
    have htb : (tick ms s).arp_table_ = (tickLoop ms s.arp_table_ s.arp_clock_).1 := by
      rw [htick]
      exact (retrieve_fields _).1
    refine ⟨fun hx => absurd hx he, ?_, ?_, ?_⟩
    · intro ip v hv
      rw [hck, htb]
      exact (tickLoop_spec ms s.arp_clock_ s.arp_table_ hsc hst ip).2 v hv
    · intro k v t hckk
      rw [hck, htb, hckk]
      exact tickLoop_head ms k v t s.arp_table_ (hckk ▸ hsc) hst
    · intro _
      exact ⟨_, htick, rfl, rfl, rfl, rfl⟩

theorem C1_tick_aging_witness :
    Advanced 10 exC1.arp_table_ (tick 10 exC1).arp_table_ (tick 10 exC1).arp_clock_ 1 (-1) :=
  (C1_tick_aging exC1 10 (by decide) (by decide)).2.2.1 1 (-1) [(2, -1)] (by decide)

theorem retrieveGo_none (s : State) : ∀ l : List (Nat × InternetDatagram),
    (∀ e ∈ l, ¬ clockResolved s.arp_clock_ e.1 = true) →
    ∀ idx : Nat, retrieveGo s l idx = s := by
  intro l
  induction l with
  | nil =>
    intro _ idx
    rfl
  | cons e rest ih =>
    intro h idx
    simp only [retrieveGo]
    rw [if_neg (h e (List.mem_cons_self _ _))]
    exact ih (fun a ha => h a (List.mem_cons_of_mem _ ha)) (idx + 1)

theorem eraseIdx_append_cons {α : Type} : ∀ (A : List α) (e : α) (B : List α),
    (A ++ e :: B).eraseIdx A.length = A ++ B := by
  intro A
  induction A with
  | nil =>
    intro e B
    rfl
  | cons a A2 ih =>
    intro e B
    simp only [List.cons_append, List.length_cons, List.eraseIdx, List.append_eq]
    rw [ih]

theorem retrieveGo_found (s : State) : ∀ (A : List (Nat × InternetDatagram))
    (e : Nat × InternetDatagram) (B : List (Nat × InternetDatagram)) (idx : Nat),
    (∀ a ∈ A, ¬ clockResolved s.arp_clock_ a.1 = true) →
    clockResolved s.arp_clock_ e.1 = true →
    retrieveGo s (A ++ e :: B) idx =
      { send_datagram e.2 e.1 s with
        dgram_table_ := (send_datagram e.2 e.1 s).dgram_table_.eraseIdx (idx + A.length) } := by
  intro A
  induction A with
  | nil =>
    intro e B idx _ he
    simp only [List.nil_append, retrieveGo]
    rw [if_pos he]
    simp
  | cons a A2 ih =>
    intro e B idx hA he
    rw [List.cons_append]
    simp only [retrieveGo]
    rw [if_neg (hA a (List.mem_cons_self _ _))]
    rw [ih e B (idx + 1) (fun x hx => hA x (List.mem_cons_of_mem _ hx)) he]
    have harith : idx + 1 + A2.length = idx + (a :: A2).length := by
      rw [List.length_cons]
      omega
    rw [harith]

/-- Claim C9: each flush scans the deferred queue in order, removes only the
first entry whose next hop is Resolved, re-submits it through send_datagram
and stops; when no entry is Resolved the state is unchanged. -/
theorem C9_flush_single : ∀ s : State, Reachable s →
    ((∀ e ∈ s.dgram_table_, ¬ Resolved s e.1) → retrieve_datagram s = s) ∧
    (∀ (A : List (Nat × InternetDatagram)) (e : Nat × InternetDatagram)
       (B : List (Nat × InternetDatagram)),
      s.dgram_table_ = A ++ e :: B → (∀ a ∈ A, ¬ Resolved s a.1) → Resolved s e.1 →
      retrieve_datagram s = { send_datagram e.2 e.1 s with dgram_table_ := A ++ B }) := by
  intro s hr
  have hi := inv_of_reachable s hr
  have hres : ∀ ip, Resolved s ip ↔ clockResolved s.arp_clock_ ip = true := by
    intro ip
    rw [clockResolved_iff]
    exact hi.2.2 ip
  constructor
  · intro hnone
    unfold retrieve_datagram
    exact retrieveGo_none s s.dgram_table_
      (fun e he hc => hnone e he ((hres e.1).mpr hc)) 0
  · intro A e B hdq hA he
    unfold retrieve_datagram
    rw [hdq]
    rw [retrieveGo_found s A e B 0 (fun a ha hc => hA a ha ((hres a.1).mpr hc))
      ((hres e.1).mp he)]
    have hdqp : (send_datagram e.2 e.1 s).dgram_table_ = s.dgram_table_ :=
      (send_resolved_fields e.2 e.1 s ((hres e.1).mp he)).2.2.1
    rw [hdqp, hdq]
    have h0 : 0 + A.length = A.length := by omega
    rw [h0, eraseIdx_append_cons]

theorem C9_witness :
    retrieve_datagram wS = { send_datagram 200 2 wS with dgram_table_ := [] } :=
  (C9_flush_single wS wS_reachable).2 [] (2, 200) [] (by decide) (by decide) (by decide)

theorem tick_single_resolved_evict (e : EthernetAddress) (i ip : Nat)
    (mac : EthernetAddress) (fr : List EthernetFrame) (v : Int) (ms : Nat)
    (hv : 0 ≤ v) (h2 : 30000 ≤ v + ms) :
    tick ms ⟨e, i, [(ip, mac)], [(ip, v)], [], fr⟩ = ⟨e, i, [], [], [], fr⟩ := by
  unfold tick
  rw [if_neg (by simp : ¬(⟨e, i, [(ip, mac)], [(ip, v)], [], fr⟩ : State).arp_clock_ = [])]
  have hl : tickLoop ms [(ip, mac)] [(ip, v)] = ([], []) := by
    simp only [tickLoop]
    rw [if_pos hv, if_pos h2]
    simp [merase]
  rw [hl]
  rw [retrieve_empty _ rfl]

theorem tick_single_resolved_age (e : EthernetAddress) (i ip : Nat)
    (mac : EthernetAddress) (fr : List EthernetFrame) (v : Int) (ms : Nat)
    (hv : 0 ≤ v) (h2 : ¬ 30000 ≤ v + ms) :
    tick ms ⟨e, i, [(ip, mac)], [(ip, v)], [], fr⟩ =
      ⟨e, i, [(ip, mac)], [(ip, v + ms)], [], fr⟩ := by
  unfold tick
  rw [if_neg (by simp : ¬(⟨e, i, [(ip, mac)], [(ip, v)], [], fr⟩ : State).arp_clock_ = [])]
  have hl : tickLoop ms [(ip, mac)] [(ip, v)] = ([(ip, mac)], [(ip, v + ms)]) := by
    simp only [tickLoop]
    rw [if_pos hv, if_neg h2]
  rw [hl]
  rw [retrieve_empty _ rfl]

theorem tick_single_pending_clear (e : EthernetAddress) (i ip : Nat)
    (fr : List EthernetFrame) (v : Int) (ms : Nat)
    (hv : v < 0) (h2 : v - ms ≤ -5001) :
    tick ms ⟨e, i, [], [(ip, v)], [], fr⟩ = ⟨e, i, [], [], [], fr⟩ := by
  unfold tick
  rw [if_neg (by simp : ¬(⟨e, i, [], [(ip, v)], [], fr⟩ : State).arp_clock_ = [])]
  have hl : tickLoop ms [] [(ip, v)] = ([], []) := by
    simp only [tickLoop]
    rw [if_neg (by omega : ¬ (0 : Int) ≤ v), if_pos h2]
  rw [hl]
  rw [retrieve_empty _ rfl]

theorem tick_single_pending_age (e : EthernetAddress) (i ip : Nat)
    (fr : List EthernetFrame) (v : Int) (ms : Nat)
    (hv : v < 0) (h2 : ¬ v - ms ≤ -5001) :
    tick ms ⟨e, i, [], [(ip, v)], [], fr⟩ = ⟨e, i, [], [(ip, v - ms)], [], fr⟩ := by
  unfold tick
  rw [if_neg (by simp : ¬(⟨e, i, [], [(ip, v)], [], fr⟩ : State).arp_clock_ = [])]
  have hl : tickLoop ms [] [(ip, v)] = ([], [(ip, v - ms)]) := by
    simp only [tickLoop]
    rw [if_neg (by omega : ¬ (0 : Int) ≤ v), if_neg h2]
  rw [hl]
  rw [retrieve_empty _ rfl]

theorem tickFold_cons (m : Nat) (rest : List Nat) (s : State) :
    tickFold (m :: rest) s = tickFold rest (tick m s) :=
  rfl

theorem tickFold_nil_clock : ∀ (ts : List Nat) (s : State),
    s.arp_clock_ = [] → tickFold ts s = s := by
  intro ts
  induction ts with
  | nil =>
    intro s h
    rfl
  | cons m rest ih =>
    intro s h
    have ht : tick m s = s := by
      unfold tick
      rw [if_pos h]
    rw [tickFold_cons, ht]
    exact ih s h

theorem tickFold_pending (e : EthernetAddress) (i ip : Nat)
    (fr : List EthernetFrame) : ∀ (ts : List Nat) (v : Int), -5001 < v → v < 0 →
    tickFold ts ⟨e, i, [], [(ip, v)], [], fr⟩ =
      if v - ts.sum ≤ -5001 then ⟨e, i, [], [], [], fr⟩
      else ⟨e, i, [], [(ip, v - ts.sum)], [], fr⟩ := by
  intro ts
  induction ts with
  | nil =>
    intro v hlo hhi
    rw [if_neg (by simp; omega)]
    simp
    rfl
  | cons m rest ih =>
    intro v hlo hhi
    rw [tickFold_cons]
    by_cases hm : v - m ≤ -5001
    · rw [tick_single_pending_clear e i ip fr v m hhi hm]
      rw [tickFold_nil_clock rest _ rfl]
      rw [List.sum_cons]
      rw [if_pos (by omega : v - ((m + rest.sum : Nat) : Int) ≤ -5001)]
    · rw [tick_single_pending_age e i ip fr v m hhi hm]
      rw [ih (v - m) (by omega) (by omega)]
      rw [List.sum_cons]
      have hcast : v - (m : Int) - (rest.sum : Int) = v - ((m + rest.sum : Nat) : Int) := by
        push_cast
        ring
      rw [hcast]

theorem tickFold_resolved (e : EthernetAddress) (i ip : Nat)
    (mac : EthernetAddress) (fr : List EthernetFrame) :
    ∀ (ts : List Nat) (v : Int), 0 ≤ v → v < 30000 →
    tickFold ts ⟨e, i, [(ip, mac)], [(ip, v)], [], fr⟩ =
      if 30000 ≤ v + ts.sum then ⟨e, i, [], [], [], fr⟩
      else ⟨e, i, [(ip, mac)], [(ip, v + ts.sum)], [], fr⟩ := by
  intro ts
  induction ts with
  | nil =>
    intro v hlo hhi
    rw [if_neg (by simp; omega)]
    simp
    rfl
  | cons m rest ih =>
    intro v hlo hhi
    rw [tickFold_cons]
    by_cases hm : (30000 : Int) ≤ v + m
    · rw [tick_single_resolved_evict e i ip mac fr v m hlo hm]
      rw [tickFold_nil_clock rest _ rfl]
      rw [List.sum_cons]
      rw [if_pos (by omega : (30000 : Int) ≤ v + ((m + rest.sum : Nat) : Int))]
    · rw [tick_single_resolved_age e i ip mac fr v m hlo hm]
      rw [ih (v + m) (by omega) (by omega)]
      rw [List.sum_cons]
      have hcast : v + (m : Int) + (rest.sum : Int) = v + ((m + rest.sum : Nat) : Int) := by
        push_cast
        ring
      rw [hcast]

/-- Claim C7: a pending record starts at -1, loses the elapsed milliseconds of
each tick, and is cleared exactly when the counter passes -5001, that is once
at least 5000 ms have accumulated; after that, a send_datagram to the address
emits a fresh ARP request instead of silently re-queuing. -/
theorem C7_pending_window : ∀ (e : EthernetAddress) (i ip : Nat)
    (dg : InternetDatagram) (fr : List EthernetFrame) (ts : List Nat),
    (∀ (s : State) (d : InternetDatagram), mlookup s.arp_table_ ip = none →
      mlookup s.arp_clock_ ip = none →
      mlookup (send_datagram d ip s).arp_clock_ ip = some (-1)) ∧
    (ts.sum < 5000 →
      tickFold ts ⟨e, i, [], [(ip, -1)], [], fr⟩ =
        ⟨e, i, [], [(ip, -1 - (ts.sum : Int))], [], fr⟩) ∧
    (5000 ≤ ts.sum →
      tickFold ts ⟨e, i, [], [(ip, -1)], [], fr⟩ = ⟨e, i, [], [], [], fr⟩ ∧
      send_datagram dg ip ⟨e, i, [], [], [], fr⟩ =
        ⟨e, i, [], [(ip, -1)], [(ip, dg)], fr ++ [arpRequestFrame e i ip]⟩) := by
  intro e i ip dg fr ts
  have hbase := tickFold_pending e i ip fr ts (-1) (by omega) (by omega)
  refine ⟨?_, ?_, ?_⟩
  · intro s d ht hc
    simp only [send_datagram, ht, hc]
    exact mlookup_minsert_self _ _ _
  · intro hlt
    rw [hbase]
    rw [if_neg (by omega : ¬ (-1 : Int) - (ts.sum : Int) ≤ -5001)]
  · intro hge
    constructor
    · rw [hbase]
      rw [if_pos (by omega : (-1 : Int) - (ts.sum : Int) ≤ -5001)]
    · simp [send_datagram, mlookup, minsert]

theorem C7_witness :
    tickFold [2500, 2500] ⟨e0, 1, [], [(2, -1)], [], []⟩ = ⟨e0, 1, [], [], [], []⟩ ∧
    send_datagram 9 2 ⟨e0, 1, [], [], [], []⟩ =
      ⟨e0, 1, [], [(2, -1)], [(2, 9)], [arpRequestFrame e0 1 2]⟩ :=
  (C7_pending_window e0 1 2 9 [] [2500, 2500]).2.2 (by decide)

/-- Claim C8: a freshly learned cache entry ages by the elapsed milliseconds
of each tick and is evicted, together with its age record, exactly when the
accumulated age reaches 30000 ms; a send_datagram to the address afterwards
emits a new ARP request instead of reusing the stale mapping. -/
theorem C8_ttl_eviction : ∀ (e : EthernetAddress) (i ip : Nat)
    (mac : EthernetAddress) (fr : List EthernetFrame) (dg : InternetDatagram)
    (ts : List Nat),
    (ts.sum < 30000 →
      tickFold ts ⟨e, i, [(ip, mac)], [(ip, 0)], [], fr⟩ =
        ⟨e, i, [(ip, mac)], [(ip, (ts.sum : Int))], [], fr⟩) ∧
    (30000 ≤ ts.sum →
      tickFold ts ⟨e, i, [(ip, mac)], [(ip, 0)], [], fr⟩ = ⟨e, i, [], [], [], fr⟩ ∧
      send_datagram dg ip ⟨e, i, [], [], [], fr⟩ =
        ⟨e, i, [], [(ip, -1)], [(ip, dg)], fr ++ [arpRequestFrame e i ip]⟩) := by
  intro e i ip mac fr dg ts
  have hbase := tickFold_resolved e i ip mac fr ts 0 (by omega) (by omega)
  constructor
  · intro hlt
    rw [hbase]
    rw [if_neg (by omega : ¬ (30000 : Int) ≤ 0 + (ts.sum : Int))]
    have hz : (0 : Int) + (ts.sum : Int) = (ts.sum : Int) := by ring
    rw [hz]
  · intro hge
    constructor
    · rw [hbase]
      rw [if_pos (by omega : (30000 : Int) ≤ 0 + (ts.sum : Int))]
    · simp [send_datagram, mlookup, minsert]

theorem C8_witness :
    tickFold [15000, 15000] ⟨e0, 1, [(2, macB)], [(2, 0)], [], []⟩ =
      ⟨e0, 1, [], [], [], []⟩ ∧
    send_datagram 9 2 ⟨e0, 1, [], [], [], []⟩ =
      ⟨e0, 1, [], [(2, -1)], [(2, 9)], [arpRequestFrame e0 1 2]⟩ :=
  (C8_ttl_eviction e0 1 2 macB [] 9 [15000, 15000]).2 (by decide)

end NetworkInterface
